import Mathlib

/-!
Shallow embedding of `imap_archiver.py` (class `ImapArchiver`).

Modelling conventions:
* Python strings (and decoded byte strings) are `List Char` (`PyStr`).
* Python `int` is `Int`; values that are parsed from decimal digit strings
  are produced as `Nat` and coerced.
* A Python function that can raise is embedded as a function into `Option`
  or `Except`; the distinct exception sites of the source get distinct
  error values.
* Timestamps are modelled at day granularity (an absolute day number, as an
  `Int`): the engine only ever uses its clock snapshot through
  `timedelta(days=...)` subtraction and a `%d-%b-%Y` date-only rendering,
  and the unused `age` field of a message record is not modelled.
* The IMAP connection is an oracle from issued requests (`Call`) to
  responses; `.error` models the library call raising an exception.
-/

/-- Python strings are modelled as lists of characters. -/
abbrev PyStr := List Char

/-- Decimal digits of `n`, most significant first, empty for `n = 0`;
the recursion of repeated division by ten is made structural with a fuel
argument, `fuel ≥ n` being enough fuel. -/
def natStrAux : Nat → Nat → PyStr
  | 0, _ => []
  | fuel + 1, n => if n = 0 then [] else natStrAux fuel (n / 10) ++ [Nat.digitChar (n % 10)]

/-- Rendering of a non-negative integer as Python `str` renders it. -/
def natStr (n : Nat) : PyStr := if n = 0 then ['0'] else natStrAux n n

/-- Rendering of a Python `int` by `str` / `%s` / `%d` formatting. -/
def intStr (n : Int) : PyStr := if n < 0 then '-' :: natStr n.natAbs else natStr n.toNat

/-- Python `sep.join(parts)`. -/
def joinSep (sep : PyStr) : List PyStr → PyStr
  | [] => []
  | [p] => p
  | p :: q :: rest => p ++ sep ++ joinSep sep (q :: rest)

/-- One iteration of the loop of `build_message_set`: the state is the pair
`(sets, set)` of the finished runs and the (optional) current run. -/
def msStep : List (List Int) × Option (List Int) → Int → List (List Int) × Option (List Int)
  | (sets, none), uid => (sets, some [uid])
  | (sets, some s), uid =>
    if s.getLast? = some (uid - 1) then (sets, some (s ++ [uid]))
    else (sets ++ [s], some [uid])

/-- Rendering of one run by the lambda in `build_message_set`:
`"%s:%s" % (x[0], x[-1]) if len(x) > 1 else str(x[0])`. -/
def renderRun (r : List Int) : PyStr :=
  if r.length > 1 then intStr (r.headD 0) ++ ':' :: intStr (r.getLastD 0)
  else intStr (r.headD 0)

/-- The method `ImapArchiver.build_message_set`.  The final `sets.append(set)` appends
`None` when the input was empty, and rendering `None` then raises a
`TypeError` (`len(None)`), modelled by the `none` result. -/
def build_message_set (message_uids : List Int) : Option PyStr :=
  match message_uids.foldl msStep ([], none) with
  | (_, none) => none
  | (sets, some s) => some (joinSep [','] ((sets ++ [s]).map renderRun))

/-- Splitting a string at every occurrence of the character `c`
(Python `str.split(c)` on one-character separators). -/
def splitChar (c : Char) : PyStr → List PyStr
  | [] => [[]]
  | a :: rest =>
    match splitChar c rest with
    | [] => [[]]
    | r :: rs => if a = c then [] :: r :: rs else (a :: r) :: rs

/-- The decimal value of a digit character. -/
def digitVal (c : Char) : Nat := c.toNat - '0'.toNat

/-- Parsing a decimal digit string into a number. -/
def parseNat (cs : PyStr) : Nat := cs.foldl (fun a c => a * 10 + digitVal c) 0

/-- The closed integer range `[a..b]`, used when expanding a `first:last`
item of a message set back into the identifiers it denotes. -/
def rangeClosed (a b : Int) : List Int :=
  (List.range ((b - a).toNat + 1)).map (fun k => a + Int.ofNat k)

/-- Expanding one comma-separated item of an encoded message set: a bare
number denotes itself, `first:last` denotes the closed range. -/
def expandPart (p : PyStr) : List Int :=
  match splitChar ':' p with
  | [a] => [(parseNat a : Int)]
  | [a, b] => rangeClosed (parseNat a : Int) (parseNat b : Int)
  | _ => []

/-- Expanding an encoded message set back into the identifiers it denotes,
by splitting on commas and colons. -/
def decodeSet (s : PyStr) : List Int := ((splitChar ',' s).map expandPart).flatten

/-- Consuming the literal `lit` from the front of `s`. -/
def expects : PyStr → PyStr → Option PyStr
  | [], s => some s
  | _ :: _, [] => none
  | c :: lit, d :: s => if c = d then expects lit s else none

/-- Python `str.replace(pat, rep)` for a non-empty `pat` (the source only
replaces the literal `".INBOX"`), with fuel making the scan structural;
`fuel ≥ s.length` is enough fuel. -/
def replaceAllAux (pat rep : PyStr) : Nat → PyStr → PyStr
  | 0, s => s
  | _ + 1, [] => []
  | fuel + 1, c :: rest =>
    match expects pat (c :: rest) with
    | some remainder => rep ++ replaceAllAux pat rep fuel remainder
    | none => c :: replaceAllAux pat rep fuel rest

/-- Python `str.replace(pat, rep)` for a non-empty `pat`. -/
def replaceAll (pat rep s : PyStr) : PyStr := replaceAllAux pat rep s.length s

/-- The method `ImapArchiver.build_archive_mailbox`:
`("%s.%d.%s" % (archive_mailbox_name, date.year, mailbox)).replace(".INBOX", "")`.
Only the year of the parsed internal date is consulted. -/
def build_archive_mailbox (root : PyStr) (year : Nat) (mailbox : PyStr) : PyStr :=
  replaceAll ('.' :: "INBOX".data) [] (root ++ '.' :: natStr year ++ '.' :: mailbox)

/-- The slicing loop `for start in range(0, len(l), b): l[start:start+b]`,
with fuel making the recursion structural; `fuel ≥ l.length` is enough
fuel when `b ≥ 1`. -/
def pagesAux (l : List Int) (b : Nat) : Nat → Nat → List (List Int)
  | 0, _ => []
  | fuel + 1, start =>
    if start < l.length then (l.drop start).take b :: pagesAux l b fuel (start + b) else []

/-- The batch pagination of `archive_mailbox`: `range(0, len(l), b)` raises
a `ValueError` for step `b = 0`, modelled by `none`. -/
def pages (l : List Int) (b : Nat) : Option (List (List Int)) :=
  if b = 0 then none else some (pagesAux l b l.length 0)

/-- One request issued on the IMAP connection.  The search query renders
only the calendar date of the cutoff (`%d-%b-%Y`), so the issued search is
recorded with the cutoff day number. -/
inductive Call where
  | select (mailbox : PyStr) (readonly : Bool)
  | uidSearch (cutoffDay : Int)
  | uidFetch (messageSet : PyStr) (items : PyStr)
  | uidMove (messageSet : PyStr) (target : PyStr)
  | create (mailbox : PyStr)
deriving DecidableEq

/-- A response of the IMAP library: a status word such as `"OK"` and the
payload lines (decoded). -/
structure ConnResp where
  status : PyStr
  data : List PyStr
deriving DecidableEq

/-- The connection oracle: what the IMAP library returns for a request;
`.error` models the library call raising an exception, carrying its
message. -/
abbrev Conn := Call → Except PyStr ConnResp

/-- The distinct failure outcomes of the engine: the explicit `raise`
sites of the source plus the exceptions Python raises implicitly
(`TypeError` from rendering a `None` run, `ValueError` from `range` with
step `0` or from `int` on a bad token, `IndexError` from `data[0]`). -/
inductive EErr where
  | selectRaised (msg : PyStr)
  | selectFailed (mailbox : PyStr)
  | searchRaised (msg : PyStr)
  | searchFailed
  | searchNoData
  | searchTokenInvalid
  | pageStepZero
  | fetchRaised (msg : PyStr)
  | fetchFailed
  | fetchParseFailed
  | emptyMessageSet
  | createRaised (msg : PyStr)
  | moveRaised (msg : PyStr)
  | moveFailed (mailbox : PyStr) (target : PyStr)
deriving DecidableEq

instance exceptDecEq {ε α : Type} [DecidableEq ε] [DecidableEq α] :
    DecidableEq (Except ε α) := fun a b =>
  match a, b with
  | .ok x, .ok y =>
    if h : x = y then .isTrue (by rw [h]) else .isFalse (by intro hh; cases hh; exact h rfl)
  | .error x, .error y =>
    if h : x = y then .isTrue (by rw [h]) else .isFalse (by intro hh; cases hh; exact h rfl)
  | .ok _, .error _ => .isFalse (by intro hh; cases hh)
  | .error _, .ok _ => .isFalse (by intro hh; cases hh)

def okStatus : PyStr := "OK".data

/-- The method `ImapArchiver.quote_mailbox`. -/
def quote_mailbox (mailbox_name : PyStr) : PyStr := '"' :: mailbox_name ++ ['"']

/-- The method `ImapArchiver.select_mailbox`.  The second positional argument of
`imaplib`'s `select` is `readonly`, so the source passes `readonly=True`;
an exception from the library is re-raised wrapped, and a non-`"OK"`
status raises. -/
def select_mailbox (conn : Conn) (mailbox : PyStr) : List Call × Except EErr Unit :=
  let call := Call.select (quote_mailbox mailbox) true
  match conn call with
  | .error e => ([call], .error (.selectRaised e))
  | .ok r =>
    if r.status = okStatus then ([call], .ok ()) else ([call], .error (.selectFailed mailbox))

/-- Python `bytes.split()`: maximal runs of non-whitespace, no empty
tokens. -/
def splitWs : PyStr → List PyStr
  | [] => []
  | c :: rest =>
    if c.isWhitespace then splitWs rest
    else
      match rest with
      | [] => [[c]]
      | d :: _ =>
        if d.isWhitespace then [c] :: splitWs rest
        else
          match splitWs rest with
          | [] => [[c]]
          | t :: ts => (c :: t) :: ts

/-- Python `int(token)`, `none` when the token is not a plain decimal
numeral (a `ValueError`). -/
def parseIntToken (t : PyStr) : Option Int :=
  if t ≠ [] ∧ t.all (·.isDigit) then some (parseNat t : Int) else none

def parseUidTokens : List PyStr → Option (List Int)
  | [] => some []
  | t :: ts =>
    match parseIntToken t, parseUidTokens ts with
    | some n, some ns => some (n :: ns)
    | _, _ => none

/-- The method `ImapArchiver.get_message_uids`: the cutoff `max_date` is the clock
snapshot minus `max_age + 1` days, the search is issued with that cutoff,
and the returned tokens are parsed and sorted ascending. -/
def get_message_uids (conn : Conn) (now max_age : Int) : List Call × Except EErr (List Int) :=
  let call := Call.uidSearch (now - (max_age + 1))
  match conn call with
  | .error e => ([call], .error (.searchRaised e))
  | .ok r =>
    if r.status = okStatus then
      match r.data.head? with
      | none => ([call], .error .searchNoData)
      | some first =>
        match parseUidTokens (splitWs first) with
        | none => ([call], .error .searchTokenInvalid)
        | some uids => ([call], .ok (uids.insertionSort (· ≤ ·)))
    else ([call], .error .searchFailed)

/-- The fields captured from a metadata line: the date-time-with-offset
of `INTERNALDATE`, as parsed by `strptime` with `%d-%b-%Y %H:%M:%S %z`. -/
structure DateT where
  day : Nat
  month : Nat
  year : Nat
  hour : Nat
  minute : Nat
  second : Nat
  offSign : Char
  offMag : Nat
deriving DecidableEq

/-- The `%b` month abbreviations accepted by `strptime`. -/
def monthNum (s : PyStr) : Option Nat :=
  if s = "Jan".data then some 1 else if s = "Feb".data then some 2
  else if s = "Mar".data then some 3 else if s = "Apr".data then some 4
  else if s = "May".data then some 5 else if s = "Jun".data then some 6
  else if s = "Jul".data then some 7 else if s = "Aug".data then some 8
  else if s = "Sep".data then some 9 else if s = "Oct".data then some 10
  else if s = "Nov".data then some 11 else if s = "Dec".data then some 12
  else none

def spanDigits (s : PyStr) : PyStr × PyStr := s.span (·.isDigit)

def spanAlpha (s : PyStr) : PyStr × PyStr := s.span (·.isAlpha)

/-- A non-empty run of digits from the front, with the remainder. -/
def reqDigits (s : PyStr) : Option (PyStr × PyStr) :=
  match spanDigits s with
  | ([], _) => none
  | (ds, r) => some (ds, r)

/-- A non-empty run of letters from the front, with the remainder. -/
def reqAlpha (s : PyStr) : Option (PyStr × PyStr) :=
  match spanAlpha s with
  | ([], _) => none
  | (ds, r) => some (ds, r)

/-- The literal ` (UID ` of the fetch-line pattern. -/
def litUid : PyStr := " (UID ".data

/-- The literal ` INTERNALDATE "` of the fetch-line pattern. -/
def litInternalDate : PyStr := " INTERNALDATE \"".data

def litDash : PyStr := "-".data

def litColon : PyStr := ":".data

def litSpace : PyStr := " ".data

/-- The `[0-9]+-[a-zA-Z]+-[0-9]+` day-month-year part of the date field:
day value, month letters, year value, and the remainder. -/
def parseDMY (s : PyStr) : Option ((Nat × PyStr × Nat) × PyStr) :=
  (reqDigits s).bind fun pd =>
  (expects litDash pd.2).bind fun r1 =>
  (reqAlpha r1).bind fun pm =>
  (expects litDash pm.2).bind fun r2 =>
  (reqDigits r2).bind fun py =>
  some ((parseNat pd.1, pm.1, parseNat py.1), py.2)

/-- The ` [0-9]+:[0-9]+:[0-9]+` time part of the date field. -/
def parseHMS (s : PyStr) : Option ((Nat × Nat × Nat) × PyStr) :=
  (expects litSpace s).bind fun r3 =>
  (reqDigits r3).bind fun ph =>
  (expects litColon ph.2).bind fun r4 =>
  (reqDigits r4).bind fun pmi =>
  (expects litColon pmi.2).bind fun r5 =>
  (reqDigits r5).bind fun ps =>
  some ((parseNat ph.1, parseNat pmi.1, parseNat ps.1), ps.2)

/-- The ` [-\+][0-9]+` offset part of the date field. -/
def parseOffset (s : PyStr) : Option (Char × Nat) :=
  (expects litSpace s).bind fun r6 =>
  r6.head?.bind fun sign =>
  (if sign = '-' ∨ sign = '+' then some () else none).bind fun _ =>
  (reqDigits (r6.drop 1)).bind fun poff =>
  some (sign, parseNat poff.1)

/-- The date part of the pattern, `[0-9]+-[a-zA-Z]+-[0-9]+
[0-9]+:[0-9]+:[0-9]+ [-\+][0-9]+`, combined with the `strptime` of the
captured field with format `%d-%b-%Y %H:%M:%S %z` (whose month
abbreviation lookup can fail). -/
def parseDateChars (s : PyStr) : Option DateT :=
  (parseDMY s).bind fun dmy =>
  (parseHMS dmy.2).bind fun hms =>
  (parseOffset hms.2).bind fun off =>
  (monthNum dmy.1.2.1).bind fun mon =>
  some ⟨dmy.1.1, mon, dmy.1.2.2, hms.1.1, hms.1.2.1, hms.1.2.2, off.1, off.2⟩

/-- Matching one fetch-response line against the source's anchored pattern
`[0-9]+ \(UID ([0-9]+) INTERNALDATE "(...)` followed by `strptime` on the
captured date field.  Both a pattern mismatch and a `strptime` failure
raise in the source (`Exception` and `ValueError` respectively); `none`
models either parse fault. -/
def parseLine (line : PyStr) : Option (Nat × DateT) :=
  (reqDigits line).bind fun p1 =>
  (expects litUid p1.2).bind fun r2 =>
  (reqDigits r2).bind fun pUid =>
  (expects litInternalDate pUid.2).bind fun r3 =>
  (parseDateChars r3).map fun d => (parseNat pUid.1, d)

/-- A fetched message record: identifier, parsed internal date, and the
derived target mailbox (the `age` field of the source dictionary is never
read and is not modelled). -/
structure Message where
  uid : Int
  date : DateT
  mailbox : PyStr
deriving DecidableEq

/-- The per-line body of the loop of `get_messages`. -/
def lineToMessage (root mailbox line : PyStr) : Option Message :=
  match parseLine line with
  | none => none
  | some (uid, d) =>
    some ⟨(uid : Int), d, build_archive_mailbox root d.year mailbox⟩

def parseAll (root mailbox : PyStr) : List PyStr → Option (List Message)
  | [] => some []
  | line :: rest =>
    match lineToMessage root mailbox line, parseAll root mailbox rest with
    | some m, some ms => some (m :: ms)
    | _, _ => none

def fetchItems : PyStr := "(UID INTERNALDATE)".data

/-- The method `ImapArchiver.get_messages`. -/
def get_messages (conn : Conn) (root mailbox : PyStr) (message_uids : List Int) :
    List Call × Except EErr (List Message) :=
  match build_message_set message_uids with
  | none => ([], .error .emptyMessageSet)
  | some mset =>
    let call := Call.uidFetch mset fetchItems
    match conn call with
    | .error e => ([call], .error (.fetchRaised e))
    | .ok r =>
      if r.status = okStatus then
        match parseAll root mailbox r.data with
        | none => ([call], .error .fetchParseFailed)
        | some msgs => ([call], .ok msgs)
      else ([call], .error .fetchFailed)

/-- Python `itertools.groupby(messages, key=lambda x: x["mailbox"])`: the maximal
contiguous runs of equal target mailbox, in order, each with its key. -/
def groupByMailbox : List Message → List (PyStr × List Message)
  | [] => []
  | m :: rest =>
    match groupByMailbox rest with
    | [] => [(m.mailbox, [m])]
    | (k, g) :: gs =>
      if m.mailbox = k then (k, m :: g) :: gs else (m.mailbox, [m]) :: (k, g) :: gs

/-- The method `ImapArchiver.create_archive_mailbox`: issues the create and appends
the name to the catalog; the status returned by the create is not
examined. -/
def create_archive_mailbox (conn : Conn) (catalog : List PyStr) (mailbox_name : PyStr) :
    List Call × Except EErr (List PyStr) :=
  let call := Call.create (quote_mailbox mailbox_name)
  match conn call with
  | .error e => ([call], .error (.createRaised e))
  | .ok _ => ([call], .ok (catalog ++ [mailbox_name]))

/-- The method `ImapArchiver.archive_messages`: membership in the catalog stands for
the `list.index` / `ValueError` probe of the source. -/
def archive_messages (conn : Conn) (catalog : List PyStr) (message_uids : List Int)
    (mailbox archive_mailbox : PyStr) : List Call × Except EErr (List PyStr) :=
  match (if archive_mailbox ∈ catalog then ([], .ok catalog)
         else create_archive_mailbox conn catalog archive_mailbox :
         List Call × Except EErr (List PyStr)) with
  | (c1, .error e) => (c1, .error e)
  | (c1, .ok catalog1) =>
    match build_message_set message_uids with
    | none => (c1, .error .emptyMessageSet)
    | some mset =>
      let call := Call.uidMove mset (quote_mailbox archive_mailbox)
      match conn call with
      | .error e => (c1 ++ [call], .error (.moveRaised e))
      | .ok r =>
        if r.status = okStatus then (c1 ++ [call], .ok catalog1)
        else (c1 ++ [call], .error (.moveFailed mailbox archive_mailbox))

/-- The inner `for` of `archive_mailbox` over `itertools.groupby`,
threading the mutable `self.archive_mailboxes`. -/
def processGroups (conn : Conn) (mailbox : PyStr) :
    List (PyStr × List Message) → List PyStr → List Call × Except EErr (List PyStr)
  | [], catalog => ([], .ok catalog)
  | (am, msgs) :: rest, catalog =>
    match archive_messages conn catalog (msgs.map (·.uid)) mailbox am with
    | (c, .error e) => (c, .error e)
    | (c, .ok catalog1) =>
      match processGroups conn mailbox rest catalog1 with
      | (c2, r) => (c ++ c2, r)

/-- The outer `for` of `archive_mailbox` over the batch slices. -/
def processPages (conn : Conn) (root mailbox : PyStr) :
    List (List Int) → List PyStr → List Call × Except EErr (List PyStr)
  | [], catalog => ([], .ok catalog)
  | page :: rest, catalog =>
    match get_messages conn root mailbox page with
    | (c, .error e) => (c, .error e)
    | (c, .ok msgs) =>
      match processGroups conn mailbox (groupByMailbox msgs) catalog with
      | (c2, .error e) => (c ++ c2, .error e)
      | (c2, .ok catalog1) =>
        match processPages conn root mailbox rest catalog1 with
        | (c3, r) => (c ++ c2 ++ c3, r)

/-- The method `ImapArchiver.archive_mailbox`: select, search, page, fetch, group,
archive.  The result carries the issued requests and the final catalog
(`self.archive_mailboxes`). -/
def archive_mailbox (conn : Conn) (now max_age : Int) (max_messages : Nat)
    (root : PyStr) (catalog : List PyStr) (mailbox : PyStr) :
    List Call × Except EErr (List PyStr) :=
  match select_mailbox conn mailbox with
  | (c, .error e) => (c, .error e)
  | (c, .ok _) =>
    match get_message_uids conn now max_age with
    | (c2, .error e) => (c ++ c2, .error e)
    | (c2, .ok message_uids) =>
      if message_uids = [] then (c ++ c2, .ok catalog)
      else
        match pages message_uids max_messages with
        | none => (c ++ c2, .error .pageStepZero)
        | some pgs =>
          match processPages conn root mailbox pgs catalog with
          | (c3, r) => (c ++ c2 ++ c3, r)

/-- Modelled from the spec: the external client's date-based search
(`searchByDateBefore` of the interface section) is not part of the source;
per the spec it returns "all message identifiers whose internal date is
before that cutoff", compared at calendar-day granularity (the issued
query carries only a calendar date) with a strict "before".  Each message
is a pair of its identifier and the day number of its internal date. -/
def searchByDateBefore (cutoff : Int) (msgs : List (Int × Int)) : List Int :=
  (msgs.filter (fun m => m.2 < cutoff)).map (fun m => m.1)

/-- A connection whose every response is success with no payload. -/
def connAllOk : Conn := fun _ => .ok ⟨okStatus, []⟩

/-- Whether a request is a move. -/
def Call.isMove : Call → Bool
  | .uidMove _ _ => true
  | _ => false

/-- Whether a request is a create. -/
def Call.isCreate : Call → Bool
  | .create _ => true
  | _ => false

/-- Whether a request is a fetch. -/
def Call.isFetch : Call → Bool
  | .uidFetch _ _ => true
  | _ => false

/-- A fetch-response line for uid 10 with internal date in 2020. -/
def lineA : PyStr := "1 (UID 10 INTERNALDATE \"05-Jan-2020 10:00:00 +0000\")".data

/-- A fetch-response line for uid 11 with internal date in 2020. -/
def lineB : PyStr := "2 (UID 11 INTERNALDATE \"06-Feb-2020 10:00:00 +0000\")".data

/-- A fetch-response line for uid 12 with internal date in 2021. -/
def lineC : PyStr := "3 (UID 12 INTERNALDATE \"07-Mar-2021 10:00:00 +0000\")".data

/-- A connection for the three-message scenario: the search returns uids
10, 11, 12 and the fetch returns their three metadata lines; everything
succeeds. -/
def connScenario : Conn := fun c =>
  match c with
  | .uidSearch _ => .ok ⟨okStatus, ["10 11 12".data]⟩
  | .uidFetch _ _ => .ok ⟨okStatus, [lineA, lineB, lineC]⟩
  | _ => .ok ⟨okStatus, []⟩

/-- A catalog that already contains both target mailboxes of the
scenario. -/
def catalogScenario : List PyStr := ["Archives.2020".data, "Archives.2021".data]

/-- A connection whose create answers with a `NO` status (a failed
create) while everything else succeeds. -/
def connCreateNo : Conn := fun c =>
  match c with
  | .create _ => .ok ⟨"NO".data, []⟩
  | _ => .ok ⟨okStatus, []⟩

/-- A connection whose search succeeds with an empty identifier list. -/
def connEmptySearch : Conn := fun c =>
  match c with
  | .uidSearch _ => .ok ⟨okStatus, [[]]⟩
  | _ => .ok ⟨okStatus, []⟩

/-- A metadata line that does not match the fetch-line pattern. -/
def badLine : PyStr := "garbage".data

/-- A connection whose fetch returns one malformed metadata line. -/
def connBadLine : Conn := fun c =>
  match c with
  | .uidFetch _ _ => .ok ⟨okStatus, [badLine]⟩
  | _ => .ok ⟨okStatus, []⟩

/-! ## Helper lemmas -/

lemma foldl_msStep_some (l : List Int) :
    ∀ sets s, ∃ sets' s', l.foldl msStep (sets, some s) = (sets', some s') := by
  induction l with
  | nil => exact fun sets s => ⟨sets, s, rfl⟩
  | cons x l ih =>
    intro sets s
    by_cases h : s.getLast? = some (x - 1)
    · simpa only [List.foldl_cons, msStep, h, if_pos] using ih sets (s ++ [x])
    · simpa only [List.foldl_cons, msStep, h, if_neg, if_false] using ih (sets ++ [s]) [x]

lemma build_message_set_isSome {l : List Int} (h : l ≠ []) :
    ∃ s, build_message_set l = some s := by
  match l, h with
  | x :: l', _ =>
    obtain ⟨sets', s', hfold⟩ := foldl_msStep_some l' [] [x]
    refine ⟨joinSep [','] ((sets' ++ [s']).map renderRun), ?_⟩
    simp only [build_message_set, List.foldl_cons]
    rw [show msStep ([], none) x = ([], some [x]) from rfl, hfold]

/-! ## Claim theorems (first batch) -/

/-- C8: an empty identifier sequence given to `build_message_set` ends in
a raised error (the rendering of the appended `None` run raises a
`TypeError`), not in the empty string. -/
theorem build_message_set_empty_rejected : build_message_set ([] : List Int) = none := by
  decide

/-- C3: the archive-mailbox name is the concatenation
`root + "." + year + "." + mailbox` with every occurrence of the
substring `".INBOX"` removed by purely textual (left-to-right,
non-overlapping) substring replacement; in particular
`name("Archives", 2023, "INBOX") = "Archives.2023"` and
`name("Archives", 2023, "INBOX.Foo") = "Archives.2023.Foo"`. -/
theorem build_archive_mailbox_spec :
    (∀ (root mailbox : PyStr) (year : Nat),
       build_archive_mailbox root year mailbox =
         replaceAll ('.' :: "INBOX".data) [] (root ++ '.' :: natStr year ++ '.' :: mailbox))
    ∧ build_archive_mailbox "Archives".data 2023 "INBOX".data = "Archives.2023".data
    ∧ build_archive_mailbox "Archives".data 2023 "INBOX.Foo".data = "Archives.2023.Foo".data :=
  ⟨fun _ _ _ => rfl, by decide, by decide⟩

/-- C5: the select the engine issues for the source mailbox carries the
readonly flag TRUE — `imaplib`'s `select(mailbox, readonly)` is called
with `True` as second positional argument — so the mailbox is opened
read-only, contrary to the claimed read-write select (and to the
method's own docstring). -/
theorem select_mailbox_readonly_flag :
    (∀ (conn : Conn) (mailbox : PyStr),
       (select_mailbox conn mailbox).1 = [Call.select (quote_mailbox mailbox) true])
    ∧ (select_mailbox connAllOk "INBOX".data).1 = [Call.select "\"INBOX\"".data true] := by
  constructor
  · intro conn mailbox
    simp only [select_mailbox]
    cases conn (Call.select (quote_mailbox mailbox) true) with
    | error e => rfl
    | ok r =>
      by_cases h : r.status = okStatus
      · simp [h]
      · simp [h]
  · decide

/-- C4 counterexample: with a catalog not containing the target and the
server answering `NO` to the create, the engine registers the name in the
catalog anyway and raises nothing — the claim that a failed create is
never registered is false. -/
theorem create_archive_mailbox_registers_failed_create :
    create_archive_mailbox connCreateNo [] "Archives.2020".data =
      ([Call.create "\"Archives.2020\"".data], .ok ["Archives.2020".data]) := by
  decide

/-- C4 amended: when the target is absent from the catalog a create
request is issued (it heads the request trace of `archive_messages`), and
while an exception raised by the create call propagates without
registering, the status returned by a completed create is ignored: the
name is appended to the catalog whatever the create answered. -/
theorem create_archive_mailbox_amended :
    ∀ (conn : Conn) (catalog : List PyStr) (name : PyStr),
      (∀ e, conn (Call.create (quote_mailbox name)) = .error e →
        create_archive_mailbox conn catalog name =
          ([Call.create (quote_mailbox name)], .error (.createRaised e)))
      ∧ (∀ r, conn (Call.create (quote_mailbox name)) = .ok r →
        create_archive_mailbox conn catalog name =
          ([Call.create (quote_mailbox name)], .ok (catalog ++ [name])))
      ∧ (∀ (message_uids : List Int) (mailbox : PyStr), name ∉ catalog →
        (archive_messages conn catalog message_uids mailbox name).1.head? =
          some (Call.create (quote_mailbox name))) := by
  intro conn catalog name
  refine ⟨?_, ?_, ?_⟩
  · intro e he
    simp only [create_archive_mailbox, he]
  · intro r hr
    simp only [create_archive_mailbox, hr]
  · intro uids mailbox hnot
    simp only [archive_messages, if_neg hnot, create_archive_mailbox]
    cases hc : conn (Call.create (quote_mailbox name)) with
    | error e => rfl
    | ok r =>
      dsimp only
      cases hb : build_message_set uids with
      | none => rfl
      | some mset =>
        dsimp only
        cases hm : conn (Call.uidMove mset (quote_mailbox name)) with
        | error e => rfl
        | ok rm =>
          dsimp only
          by_cases hs : rm.status = okStatus
          · rw [if_pos hs]; rfl
          · rw [if_neg hs]; rfl

/-- Witness for C4's amended theorem at a concrete input. -/
theorem create_archive_mailbox_amended_witness :
    connAllOk (Call.create (quote_mailbox "X".data)) = .ok ⟨okStatus, []⟩ ∧
    create_archive_mailbox connAllOk [] "X".data =
      ([Call.create (quote_mailbox "X".data)], .ok ["X".data]) :=
  ⟨rfl, (create_archive_mailbox_amended connAllOk [] "X".data).2.1 ⟨okStatus, []⟩ rfl⟩

/-- C6 counterexample: the issued search carries the cutoff snapshot
minus (maxAge+1) days, and a message whose internal date is exactly
maxAge+1 days before the snapshot lies ON that cutoff date, so the
spec's strict date-before search does NOT include it (here
now = 1000, maxAge = 365, message day 634 = 1000 - 366). -/
theorem search_cutoff_boundary_counterexample :
    (get_message_uids connAllOk 1000 365).1 = [Call.uidSearch (1000 - (365 + 1))]
    ∧ ¬ (7 ∈ searchByDateBefore (1000 - (365 + 1)) [(7, 1000 - (365 + 1))]) :=
  ⟨by decide, by decide⟩

/-- C6 amended: the search cutoff equals the clock snapshot minus
(maxAgeDays + 1) days and the search requests the identifiers with
internal date strictly before that cutoff, so a message whose internal
date is exactly maxAgeDays + 1 days before the snapshot shares the
cutoff's calendar date and is excluded, a message maxAgeDays + 2 days
before is included, and a message one day younger than the boundary is
excluded; if the search returns no identifiers, `archive_mailbox`
terminates successfully with no fetch or move call. -/
theorem get_message_uids_cutoff :
    (∀ (conn : Conn) (now max_age : Int),
       (get_message_uids conn now max_age).1 = [Call.uidSearch (now - (max_age + 1))])
    ∧ (∀ (now max_age uid : Int),
        uid ∈ searchByDateBefore (now - (max_age + 1)) [(uid, now - (max_age + 2))]
        ∧ uid ∉ searchByDateBefore (now - (max_age + 1)) [(uid, now - (max_age + 1))]
        ∧ uid ∉ searchByDateBefore (now - (max_age + 1)) [(uid, now - max_age)])
    ∧ (∀ (conn : Conn) (now max_age : Int) (max_messages : Nat)
         (root : PyStr) (catalog : List PyStr) (mailbox : PyStr)
         (rs rr : ConnResp) (first : PyStr),
        conn (Call.select (quote_mailbox mailbox) true) = .ok rs →
        rs.status = okStatus →
        conn (Call.uidSearch (now - (max_age + 1))) = .ok rr →
        rr.status = okStatus →
        rr.data.head? = some first →
        parseUidTokens (splitWs first) = some [] →
        archive_mailbox conn now max_age max_messages root catalog mailbox =
          ([Call.select (quote_mailbox mailbox) true, Call.uidSearch (now - (max_age + 1))],
           .ok catalog)) := by
  refine ⟨?_, ?_, ?_⟩
  · intro conn now max_age
    simp only [get_message_uids]
    cases conn (Call.uidSearch (now - (max_age + 1))) with
    | error e => rfl
    | ok r =>
      dsimp only
      by_cases h : r.status = okStatus
      · rw [if_pos h]
        cases r.data.head? with
        | none => rfl
        | some first =>
          dsimp only
          cases parseUidTokens (splitWs first) with
          | none => rfl
          | some uids => rfl
      · rw [if_neg h]
  · intro now max_age uid
    refine ⟨?_, ?_, ?_⟩
    · have h : now - (max_age + 2) < now - (max_age + 1) := by omega
      simp [searchByDateBefore, h]
    · have h : ¬ (now - (max_age + 1) < now - (max_age + 1)) := by omega
      simp [searchByDateBefore, h]
    · have h : ¬ (now - max_age < now - (max_age + 1)) := by omega
      simp [searchByDateBefore, h]
  · intro conn now max_age max_messages root catalog mailbox rs rr first
      hsel hselok hsearch hsearchok hfirst htok
    have h1 : select_mailbox conn mailbox =
        ([Call.select (quote_mailbox mailbox) true], .ok ()) := by
      simp [select_mailbox, hsel, hselok]
    have h2 : get_message_uids conn now max_age =
        ([Call.uidSearch (now - (max_age + 1))], .ok []) := by
      simp [get_message_uids, hsearch, hsearchok, hfirst, htok]
    simp [archive_mailbox, h1, h2]

/-- Witness for C6's amended theorem at a concrete input. -/
theorem get_message_uids_cutoff_witness :
    connEmptySearch (Call.select (quote_mailbox "INBOX".data) true) = .ok ⟨okStatus, []⟩
    ∧ (⟨okStatus, []⟩ : ConnResp).status = okStatus
    ∧ connEmptySearch (Call.uidSearch ((1000 : Int) - (365 + 1))) = .ok ⟨okStatus, [[]]⟩
    ∧ (⟨okStatus, [[]]⟩ : ConnResp).status = okStatus
    ∧ (⟨okStatus, [[]]⟩ : ConnResp).data.head? = some []
    ∧ parseUidTokens (splitWs []) = some []
    ∧ archive_mailbox connEmptySearch 1000 365 50 "Archives".data [] "INBOX".data =
        ([Call.select (quote_mailbox "INBOX".data) true,
          Call.uidSearch ((1000 : Int) - (365 + 1))], .ok []) :=
  ⟨rfl, rfl, rfl, rfl, rfl, rfl,
   get_message_uids_cutoff.2.2 connEmptySearch 1000 365 50 "Archives".data [] "INBOX".data
     ⟨okStatus, []⟩ ⟨okStatus, [[]]⟩ [] rfl rfl rfl rfl rfl rfl⟩

lemma parseAll_none {root mailbox : PyStr} {lines : List PyStr}
    (h : ∃ line ∈ lines, lineToMessage root mailbox line = none) :
    parseAll root mailbox lines = none := by
  induction lines with
  | nil => simp at h
  | cons l ls ih =>
    obtain ⟨line, hmem, hl⟩ := h
    rcases List.mem_cons.mp hmem with rfl | hmem'
    · simp only [parseAll, hl]
    · simp only [parseAll]
      rw [ih ⟨line, hmem', hl⟩]
      cases lineToMessage root mailbox l <;> rfl

/-- C7: if any line of a batch's fetch response fails the fixed pattern
(or its date fails to convert), `get_messages` fails with the parse
fault, and the whole batch's processing issues no move call — its entire
request trace is the one fetch. -/
theorem get_messages_parse_failure :
    ∀ (conn : Conn) (root mailbox : PyStr) (page : List Int) (rest : List (List Int))
      (catalog : List PyStr) (mset : PyStr) (r : ConnResp),
      build_message_set page = some mset →
      conn (Call.uidFetch mset fetchItems) = .ok r →
      r.status = okStatus →
      (∃ line ∈ r.data, lineToMessage root mailbox line = none) →
      get_messages conn root mailbox page =
        ([Call.uidFetch mset fetchItems], .error .fetchParseFailed)
      ∧ processPages conn root mailbox (page :: rest) catalog =
          ([Call.uidFetch mset fetchItems], .error .fetchParseFailed)
      ∧ ∀ call ∈ (processPages conn root mailbox (page :: rest) catalog).1,
          call.isMove = false := by
  intro conn root mailbox page rest catalog mset r hb hf hst hex
  have hg : get_messages conn root mailbox page =
      ([Call.uidFetch mset fetchItems], .error .fetchParseFailed) := by
    simp [get_messages, hb, hf, hst, parseAll_none hex]
  have hp : processPages conn root mailbox (page :: rest) catalog =
      ([Call.uidFetch mset fetchItems], .error .fetchParseFailed) := by
    simp only [processPages, hg]
  refine ⟨hg, hp, ?_⟩
  rw [hp]
  intro call hc
  obtain rfl := List.mem_singleton.mp hc
  rfl

/-- Witness for C7's theorem at a concrete input. -/
theorem get_messages_parse_failure_witness :
    build_message_set [1] = some "1".data
    ∧ connBadLine (Call.uidFetch "1".data fetchItems) = .ok ⟨okStatus, [badLine]⟩
    ∧ (⟨okStatus, [badLine]⟩ : ConnResp).status = okStatus
    ∧ (∃ line ∈ (⟨okStatus, [badLine]⟩ : ConnResp).data,
         lineToMessage "Archives".data "INBOX".data line = none)
    ∧ get_messages connBadLine "Archives".data "INBOX".data [1] =
        ([Call.uidFetch "1".data fetchItems], .error .fetchParseFailed) :=
  ⟨by decide, rfl, rfl, ⟨badLine, by decide, by decide⟩,
   (get_messages_parse_failure connBadLine "Archives".data "INBOX".data [1] [] []
      "1".data ⟨okStatus, [badLine]⟩ (by decide) rfl rfl
      ⟨badLine, by decide, by decide⟩).1⟩

lemma pagesAux_flatten (l : List Int) (b : Nat) (hb : 1 ≤ b) :
    ∀ (fuel start : Nat), l.length ≤ start + fuel →
      (pagesAux l b fuel start).flatten = l.drop start := by
  intro fuel
  induction fuel with
  | zero =>
    intro start h
    simp only [pagesAux, List.flatten_nil]
    exact (List.drop_eq_nil_of_le (by omega)).symm
  | succ fuel ih =>
    intro start h
    by_cases hs : start < l.length
    · simp only [pagesAux, if_pos hs, List.flatten_cons]
      rw [ih (start + b) (by omega)]
      exact List.drop_take_append_drop l start b
    · simp only [pagesAux, if_neg hs, List.flatten_nil]
      exact (List.drop_eq_nil_of_le (by omega)).symm

lemma pagesAux_mem_length {l : List Int} {b : Nat} :
    ∀ {fuel start : Nat} {w : List Int}, w ∈ pagesAux l b fuel start → w.length ≤ b := by
  intro fuel
  induction fuel with
  | zero => intro start w h; simp [pagesAux] at h
  | succ fuel ih =>
    intro start w h
    by_cases hs : start < l.length
    · simp only [pagesAux, if_pos hs] at h
      rcases List.mem_cons.mp h with rfl | h'
      · simp only [List.length_take, List.length_drop]
        omega
      · exact ih h'
    · simp [pagesAux, if_neg hs] at h

lemma pagesAux_mem_ne_nil {l : List Int} {b : Nat} (hb : 1 ≤ b) :
    ∀ {fuel start : Nat} {w : List Int}, w ∈ pagesAux l b fuel start → w ≠ [] := by
  intro fuel
  induction fuel with
  | zero => intro start w h; simp [pagesAux] at h
  | succ fuel ih =>
    intro start w h
    by_cases hs : start < l.length
    · simp only [pagesAux, if_pos hs] at h
      rcases List.mem_cons.mp h with rfl | h'
      · have hlen : ((l.drop start).take b).length = min b (l.length - start) := by
          simp [List.length_take, List.length_drop]
        intro hnil
        rw [hnil] at hlen
        simp only [List.length_nil] at hlen
        omega
      · exact ih h'
    · simp [pagesAux, if_neg hs] at h

lemma pagesAux_ne_nil_start {l : List Int} {b fuel start : Nat}
    (h : pagesAux l b fuel start ≠ []) : start < l.length := by
  cases fuel with
  | zero => simp [pagesAux] at h
  | succ fuel =>
    by_cases hs : start < l.length
    · exact hs
    · simp [pagesAux, if_neg hs] at h

lemma pagesAux_full (l : List Int) (b : Nat) :
    ∀ (fuel start : Nat), ∀ w ∈ (pagesAux l b fuel start).dropLast, w.length = b := by
  intro fuel
  induction fuel with
  | zero => intro start w h; simp [pagesAux] at h
  | succ fuel ih =>
    intro start w h
    by_cases hs : start < l.length
    · simp only [pagesAux, if_pos hs] at h
      by_cases hrest : pagesAux l b fuel (start + b) = []
      · rw [hrest] at h
        simp at h
      · rw [List.dropLast_cons_of_ne_nil hrest] at h
        rcases List.mem_cons.mp h with rfl | h'
        · have hlt : start + b < l.length := pagesAux_ne_nil_start hrest
          simp only [List.length_take, List.length_drop]
          omega
        · exact ih (start + b) w h'
    · simp [pagesAux, if_neg hs] at h

set_option maxRecDepth 4000 in
/-- C9: for every identifier list and every batch size at least 1, the
slicing loop produces contiguous windows of at most `batchSize` elements
that concatenate back to the whole input in order (no gaps, no overlaps),
with every window except possibly the last of full size; paging
`[1..120]` with batch size 50 gives windows of sizes 50, 50, 20. -/
theorem pages_windows :
    (∀ (l : List Int) (b : Nat), 1 ≤ b →
      ∃ ws, pages l b = some ws
        ∧ ws.flatten = l
        ∧ (∀ w ∈ ws, w.length ≤ b)
        ∧ (∀ w ∈ ws.dropLast, w.length = b))
    ∧ (pages ((List.range' 1 120).map (fun n => (n : Int))) 50).map
        (fun ws => ws.map List.length) = some [50, 50, 20]
    ∧ (pages ((List.range' 1 120).map (fun n => (n : Int))) 50).map List.flatten =
        some ((List.range' 1 120).map (fun n => (n : Int))) := by
  refine ⟨?_, by decide, by decide⟩
  intro l b hb
  have hbne : b ≠ 0 := by omega
  refine ⟨pagesAux l b l.length 0, ?_, ?_, ?_, ?_⟩
  · simp [pages, hbne]
  · simpa using pagesAux_flatten l b hb l.length 0 (by omega)
  · intro w hw
    exact pagesAux_mem_length hw
  · intro w hw
    exact pagesAux_full l b l.length 0 w hw

/-- Witness for C9's theorem at a concrete input. -/
theorem pages_windows_witness :
    1 ≤ 2 ∧
    ∃ ws, pages [(5 : Int), 6, 7, 8, 9] 2 = some ws
      ∧ ws.flatten = [(5 : Int), 6, 7, 8, 9]
      ∧ (∀ w ∈ ws, w.length ≤ 2)
      ∧ (∀ w ∈ ws.dropLast, w.length = 2) :=
  ⟨by decide, pages_windows.1 [(5 : Int), 6, 7, 8, 9] 2 (by decide)⟩

lemma groupByMailbox_cons_ne_nil (m : Message) (rest : List Message) :
    groupByMailbox (m :: rest) ≠ [] := by
  simp only [groupByMailbox]
  cases groupByMailbox rest with
  | nil => simp
  | cons g gs =>
    obtain ⟨k, grp⟩ := g
    by_cases h : m.mailbox = k <;> simp [h]

lemma groupByMailbox_flatten :
    ∀ msgs : List Message, ((groupByMailbox msgs).map (fun g => g.2)).flatten = msgs := by
  intro msgs
  induction msgs with
  | nil => rfl
  | cons m rest ih =>
    simp only [groupByMailbox]
    cases hr : groupByMailbox rest with
    | nil =>
      have hrest : rest = [] := by
        cases rest with
        | nil => rfl
        | cons m' rest' => exact absurd hr (groupByMailbox_cons_ne_nil m' rest')
      subst hrest
      rfl
    | cons g gs =>
      obtain ⟨k, grp⟩ := g
      rw [hr] at ih
      dsimp only
      by_cases h : m.mailbox = k
      · rw [if_pos h]
        simpa using ih
      · rw [if_neg h]
        simpa using ih

lemma groupByMailbox_members :
    ∀ msgs : List Message, ∀ g ∈ groupByMailbox msgs,
      g.2 ≠ [] ∧ ∀ m ∈ g.2, m.mailbox = g.1 := by
  intro msgs
  induction msgs with
  | nil => intro g h; simp [groupByMailbox] at h
  | cons m rest ih =>
    intro g h
    simp only [groupByMailbox] at h
    cases hr : groupByMailbox rest with
    | nil =>
      rw [hr] at h
      obtain rfl := List.mem_singleton.mp h
      exact ⟨by simp, by simp⟩
    | cons g0 gs =>
      rw [hr] at h
      obtain ⟨k, grp⟩ := g0
      dsimp only at h
      by_cases hk : m.mailbox = k
      · rw [if_pos hk] at h
        rcases List.mem_cons.mp h with rfl | h'
        · have hg0 := ih (k, grp) (by rw [hr]; exact List.mem_cons_self _ _)
          refine ⟨by simp, ?_⟩
          intro m' hm'
          rcases List.mem_cons.mp hm' with rfl | hm''
          · exact hk
          · exact hg0.2 m' hm''
        · exact ih g (by rw [hr]; exact List.mem_cons_of_mem _ h')
      · rw [if_neg hk] at h
        rcases List.mem_cons.mp h with rfl | h'
        · exact ⟨by simp, by simp⟩
        · exact ih g (by rw [hr]; exact h')

lemma groupByMailbox_head_key (m : Message) (rest : List Message) :
    ((groupByMailbox (m :: rest)).map (fun g => g.1)).head? = some m.mailbox := by
  simp only [groupByMailbox]
  cases groupByMailbox rest with
  | nil => rfl
  | cons g0 gs =>
    obtain ⟨k, grp⟩ := g0
    dsimp only
    by_cases h : m.mailbox = k
    · rw [if_pos h]
      simp [h]
    · rw [if_neg h]
      rfl

lemma groupByMailbox_chain :
    ∀ msgs : List Message,
      ((groupByMailbox msgs).map (fun g => g.1)).Chain' (fun a b => a ≠ b) := by
  intro msgs
  induction msgs with
  | nil => simp [groupByMailbox]
  | cons m rest ih =>
    simp only [groupByMailbox]
    cases hr : groupByMailbox rest with
    | nil => simp
    | cons g0 gs =>
      obtain ⟨k, grp⟩ := g0
      rw [hr] at ih
      dsimp only
      by_cases h : m.mailbox = k
      · rw [if_pos h]
        simpa using ih
      · rw [if_neg h]
        have hh : ((groupByMailbox rest).map (fun g => g.1)).head? = some k := by
          rw [hr]; rfl
        simp only [List.map_cons]
        rw [List.chain'_cons]
        refine ⟨h, ?_⟩
        simpa using ih

lemma archive_messages_allOk (catalog : List PyStr) (uids : List Int)
    (mailbox am : PyStr) (h : uids ≠ []) :
    ∃ mset cat1,
      archive_messages connAllOk catalog uids mailbox am =
        ((if am ∈ catalog then [] else [Call.create (quote_mailbox am)]) ++
          [Call.uidMove mset (quote_mailbox am)], .ok cat1) := by
  obtain ⟨mset, hm⟩ := build_message_set_isSome h
  refine ⟨mset, if am ∈ catalog then catalog else catalog ++ [am], ?_⟩
  simp only [archive_messages]
  by_cases hmem : am ∈ catalog
  · rw [if_pos hmem, if_pos hmem, if_pos hmem]
    dsimp only
    rw [hm]
    rfl
  · rw [if_neg hmem, if_neg hmem, if_neg hmem]
    simp only [create_archive_mailbox]
    dsimp only [connAllOk]
    rw [hm]
    rfl

lemma processGroups_allOk_moves (mailbox : PyStr) :
    ∀ (groups : List (PyStr × List Message)) (catalog : List PyStr),
      (∀ g ∈ groups, g.2 ≠ []) →
      ((processGroups connAllOk mailbox groups catalog).1.filter Call.isMove).length =
        groups.length := by
  intro groups
  induction groups with
  | nil => intro catalog h; simp [processGroups]
  | cons g rest ih =>
    intro catalog h
    obtain ⟨am, msgs⟩ := g
    have hgnil : msgs ≠ [] := (h (am, msgs) (List.mem_cons_self _ _))
    have huids : msgs.map (fun m => m.uid) ≠ [] := by
      simpa using hgnil
    obtain ⟨mset, cat1, harch⟩ := archive_messages_allOk catalog
      (msgs.map (fun m => m.uid)) mailbox am huids
    simp only [processGroups, harch]
    cases hrest : processGroups connAllOk mailbox rest cat1 with
    | mk c2 r2 =>
      dsimp only
      have ihr := ih cat1 (fun g hg => h g (List.mem_cons_of_mem _ hg))
      rw [hrest] at ihr
      dsimp only at ihr
      simp only [List.filter_append, List.length_append, ihr]
      by_cases hmem : am ∈ catalog
      · rw [if_pos hmem]
        simp [Call.isMove]
        omega
      · rw [if_neg hmem]
        simp [Call.isMove, Call.isCreate]
        omega

/-- C2: within each batch the engine partitions the fetched messages into
maximal contiguous runs of equal target mailbox — the runs concatenate
back to the batch in order, every run is non-empty and homogeneous in its
target, and adjacent runs have different targets (equal targets at
non-adjacent positions stay separate) — and issues exactly one move per
run (one per run under an all-success connection); in the concrete
three-message scenario with uids 10, 11 (target `Archives.2020`) and 12
(target `Archives.2021`) it ensures each target exists and issues exactly
two moves, `10:11` and `12`, with at most two creates (zero here, both
targets being catalogued). -/
theorem archive_mailbox_grouping :
    (∀ msgs : List Message, ((groupByMailbox msgs).map (fun g => g.2)).flatten = msgs)
    ∧ (∀ msgs : List Message, ∀ g ∈ groupByMailbox msgs,
         g.2 ≠ [] ∧ ∀ m ∈ g.2, m.mailbox = g.1)
    ∧ (∀ msgs : List Message,
         ((groupByMailbox msgs).map (fun g => g.1)).Chain' (fun a b => a ≠ b))
    ∧ (∀ (mailbox : PyStr) (msgs : List Message) (catalog : List PyStr),
         ((processGroups connAllOk mailbox (groupByMailbox msgs) catalog).1.filter
             Call.isMove).length = (groupByMailbox msgs).length)
    ∧ archive_mailbox connScenario 1000 365 50 "Archives".data catalogScenario "INBOX".data =
        ([Call.select "\"INBOX\"".data true, Call.uidSearch 634,
          Call.uidFetch "10:12".data fetchItems,
          Call.uidMove "10:11".data "\"Archives.2020\"".data,
          Call.uidMove "12".data "\"Archives.2021\"".data], .ok catalogScenario)
    ∧ ((archive_mailbox connScenario 1000 365 50 "Archives".data catalogScenario
          "INBOX".data).1.filter Call.isMove) =
        [Call.uidMove "10:11".data "\"Archives.2020\"".data,
         Call.uidMove "12".data "\"Archives.2021\"".data]
    ∧ ((archive_mailbox connScenario 1000 365 50 "Archives".data catalogScenario
          "INBOX".data).1.filter Call.isCreate).length ≤ 2 :=
  ⟨groupByMailbox_flatten, groupByMailbox_members, groupByMailbox_chain,
   fun mailbox msgs catalog =>
     processGroups_allOk_moves mailbox (groupByMailbox msgs) catalog
       (fun g hg => (groupByMailbox_members msgs g hg).1),
   by decide, by decide, by decide⟩

lemma select_mailbox_no_empty (conn : Conn) (mailbox : PyStr) :
    (select_mailbox conn mailbox).2 ≠ Except.error EErr.emptyMessageSet := by
  simp only [select_mailbox]
  cases conn (Call.select (quote_mailbox mailbox) true) with
  | error e => simp
  | ok r =>
    dsimp only
    by_cases h : r.status = okStatus
    · rw [if_pos h]; simp
    · rw [if_neg h]; simp

lemma get_message_uids_no_empty (conn : Conn) (now max_age : Int) :
    (get_message_uids conn now max_age).2 ≠ Except.error EErr.emptyMessageSet := by
  simp only [get_message_uids]
  cases conn (Call.uidSearch (now - (max_age + 1))) with
  | error e => simp
  | ok r =>
    dsimp only
    by_cases h : r.status = okStatus
    · rw [if_pos h]
      cases r.data.head? with
      | none => simp
      | some first =>
        dsimp only
        cases parseUidTokens (splitWs first) with
        | none => simp
        | some uids => simp
    · rw [if_neg h]; simp

lemma get_messages_no_empty (conn : Conn) (root mailbox : PyStr) (page : List Int)
    (h : page ≠ []) :
    (get_messages conn root mailbox page).2 ≠ Except.error EErr.emptyMessageSet := by
  obtain ⟨mset, hm⟩ := build_message_set_isSome h
  simp only [get_messages, hm]
  cases conn (Call.uidFetch mset fetchItems) with
  | error e => simp
  | ok r =>
    dsimp only
    by_cases hs : r.status = okStatus
    · rw [if_pos hs]
      cases parseAll root mailbox r.data with
      | none => simp
      | some msgs => simp
    · rw [if_neg hs]; simp

lemma archive_messages_no_empty (conn : Conn) (catalog : List PyStr) (uids : List Int)
    (mailbox am : PyStr) (h : uids ≠ []) :
    (archive_messages conn catalog uids mailbox am).2 ≠ Except.error EErr.emptyMessageSet := by
  obtain ⟨mset, hm⟩ := build_message_set_isSome h
  simp only [archive_messages]
  by_cases hmem : am ∈ catalog
  · rw [if_pos hmem]
    dsimp only
    rw [hm]
    dsimp only
    cases conn (Call.uidMove mset (quote_mailbox am)) with
    | error e => simp
    | ok rm =>
      dsimp only
      by_cases hs : rm.status = okStatus
      · rw [if_pos hs]; simp
      · rw [if_neg hs]; simp
  · rw [if_neg hmem]
    simp only [create_archive_mailbox]
    cases conn (Call.create (quote_mailbox am)) with
    | error e => simp
    | ok r =>
      dsimp only
      rw [hm]
      dsimp only
      cases conn (Call.uidMove mset (quote_mailbox am)) with
      | error e => simp
      | ok rm =>
        dsimp only
        by_cases hs : rm.status = okStatus
        · rw [if_pos hs]; simp
        · rw [if_neg hs]; simp

lemma processGroups_no_empty (conn : Conn) (mailbox : PyStr) :
    ∀ (groups : List (PyStr × List Message)) (catalog : List PyStr),
      (∀ g ∈ groups, g.2 ≠ []) →
      (processGroups conn mailbox groups catalog).2 ≠ Except.error EErr.emptyMessageSet := by
  intro groups
  induction groups with
  | nil => intro catalog h; simp [processGroups]
  | cons g rest ih =>
    intro catalog h
    obtain ⟨am, msgs⟩ := g
    have hne := archive_messages_no_empty conn catalog (msgs.map (fun m => m.uid)) mailbox am
      (by simpa using h (am, msgs) (List.mem_cons_self _ _))
    simp only [processGroups]
    cases harch : archive_messages conn catalog (msgs.map (fun m => m.uid)) mailbox am with
    | mk c res =>
      rw [harch] at hne
      cases res with
      | error e =>
        dsimp only
        exact hne
      | ok catalog1 =>
        dsimp only
        cases hrest : processGroups conn mailbox rest catalog1 with
        | mk c2 r2 =>
          dsimp only
          have hr := ih catalog1 (fun g hg => h g (List.mem_cons_of_mem _ hg))
          rw [hrest] at hr
          exact hr

lemma processPages_no_empty (conn : Conn) (root mailbox : PyStr) :
    ∀ (pgs : List (List Int)) (catalog : List PyStr),
      (∀ p ∈ pgs, p ≠ []) →
      (processPages conn root mailbox pgs catalog).2 ≠ Except.error EErr.emptyMessageSet := by
  intro pgs
  induction pgs with
  | nil => intro catalog h; simp [processPages]
  | cons page rest ih =>
    intro catalog h
    have hpage : page ≠ [] := h page (List.mem_cons_self _ _)
    have hgm := get_messages_no_empty conn root mailbox page hpage
    simp only [processPages]
    cases hg : get_messages conn root mailbox page with
    | mk c res =>
      rw [hg] at hgm
      cases res with
      | error e =>
        dsimp only
        simpa using hgm
      | ok msgs =>
        dsimp only
        have hpg := processGroups_no_empty conn mailbox (groupByMailbox msgs) catalog
          (fun g hgg => (groupByMailbox_members msgs g hgg).1)
        cases hgr : processGroups conn mailbox (groupByMailbox msgs) catalog with
        | mk c2 r2 =>
          rw [hgr] at hpg
          cases r2 with
          | error e =>
            dsimp only
            exact hpg
          | ok catalog1 =>
            dsimp only
            cases hrest : processPages conn root mailbox rest catalog1 with
            | mk c3 r3 =>
              dsimp only
              have hr := ih catalog1 (fun p hp => h p (List.mem_cons_of_mem _ hp))
              rw [hrest] at hr
              exact hr

/-- C10: no identifier list the engine hands to `build_message_set` is
empty — the empty search result returns before paging, every batch slice
is non-empty, and every grouped run is non-empty — so the engine can
never end in the `TypeError` of rendering the empty set. -/
theorem archive_mailbox_no_empty_encode :
    ∀ (conn : Conn) (now max_age : Int) (max_messages : Nat)
      (root : PyStr) (catalog : List PyStr) (mailbox : PyStr),
      (archive_mailbox conn now max_age max_messages root catalog mailbox).2 ≠
        Except.error EErr.emptyMessageSet := by
  intro conn now max_age mm root catalog mailbox
  simp only [archive_mailbox]
  have hsel := select_mailbox_no_empty conn mailbox
  cases hs : select_mailbox conn mailbox with
  | mk c res =>
    rw [hs] at hsel
    cases res with
    | error e =>
      dsimp only
      simpa using hsel
    | ok u =>
      dsimp only
      have hgu := get_message_uids_no_empty conn now max_age
      cases hg : get_message_uids conn now max_age with
      | mk c2 res2 =>
        rw [hg] at hgu
        cases res2 with
        | error e =>
          dsimp only
          simpa using hgu
        | ok uids =>
          dsimp only
          by_cases hnil : uids = []
          · rw [if_pos hnil]
            simp
          · rw [if_neg hnil]
            by_cases hb : mm = 0
            · simp only [pages, if_pos hb]
              simp
            · simp only [pages, if_neg hb]
              have hp := processPages_no_empty conn root mailbox
                (pagesAux uids mm uids.length 0) catalog
                (fun p hpp => pagesAux_mem_ne_nil (by omega) hpp)
              cases hpp : processPages conn root mailbox
                  (pagesAux uids mm uids.length 0) catalog with
              | mk c3 r3 =>
                rw [hpp] at hp
                dsimp only
                exact hp

lemma natStrAux_mem :
    ∀ (fuel n : Nat), ∀ c ∈ natStrAux fuel n, ∃ d, d < 10 ∧ c = Nat.digitChar d := by
  intro fuel
  induction fuel with
  | zero => intro n c hc; simp [natStrAux] at hc
  | succ fuel ih =>
    intro n c hc
    simp only [natStrAux] at hc
    by_cases h : n = 0
    · rw [if_pos h] at hc; simp at hc
    · rw [if_neg h] at hc
      rcases List.mem_append.mp hc with h1 | h2
      · exact ih (n / 10) c h1
      · obtain rfl := List.mem_singleton.mp h2
        exact ⟨n % 10, Nat.mod_lt _ (by omega), rfl⟩

lemma digitChar_not_comma_colon : ∀ d, d < 10 →
    Nat.digitChar d ≠ ',' ∧ Nat.digitChar d ≠ ':' := by decide

lemma natStr_no_comma (n : Nat) : ',' ∉ natStr n := by
  by_cases h : n = 0
  · subst h; decide
  · simp only [natStr, if_neg h]
    intro hc
    obtain ⟨d, hd, hdc⟩ := natStrAux_mem n n ',' hc
    exact (digitChar_not_comma_colon d hd).1 hdc.symm

lemma natStr_no_colon (n : Nat) : ':' ∉ natStr n := by
  by_cases h : n = 0
  · subst h; decide
  · simp only [natStr, if_neg h]
    intro hc
    obtain ⟨d, hd, hdc⟩ := natStrAux_mem n n ':' hc
    exact (digitChar_not_comma_colon d hd).2 hdc.symm

lemma intStr_no_comma (a : Int) : ',' ∉ intStr a := by
  simp only [intStr]
  by_cases h : a < 0
  · rw [if_pos h]
    intro hc
    rcases List.mem_cons.mp hc with h1 | h2
    · exact absurd h1.symm (by decide)
    · exact natStr_no_comma _ h2
  · rw [if_neg h]
    exact natStr_no_comma _

lemma intStr_nonneg {a : Int} (h : 0 ≤ a) : intStr a = natStr a.toNat := by
  simp only [intStr]
  rw [if_neg (by omega)]

lemma digitVal_digitChar : ∀ d, d < 10 → digitVal (Nat.digitChar d) = d := by decide

lemma parseNat_aux :
    ∀ (fuel n acc : Nat), n ≤ fuel →
      (natStrAux fuel n).foldl (fun a c => a * 10 + digitVal c) acc =
        acc * 10 ^ (natStrAux fuel n).length + n := by
  intro fuel
  induction fuel with
  | zero =>
    intro n acc h
    have : n = 0 := by omega
    subst this
    simp [natStrAux]
  | succ fuel ih =>
    intro n acc h
    by_cases h0 : n = 0
    · subst h0; simp [natStrAux]
    · simp only [natStrAux, if_neg h0]
      rw [List.foldl_append, ih (n / 10) acc (by omega)]
      simp only [List.foldl_cons, List.foldl_nil, List.length_append, List.length_cons,
        List.length_nil]
      rw [digitVal_digitChar (n % 10) (Nat.mod_lt _ (by omega))]
      have hmod := Nat.div_add_mod n 10
      calc (acc * 10 ^ (natStrAux fuel (n / 10)).length + n / 10) * 10 + n % 10
          = acc * (10 ^ (natStrAux fuel (n / 10)).length * 10) + (10 * (n / 10) + n % 10) := by
            ring
        _ = acc * 10 ^ ((natStrAux fuel (n / 10)).length + 1) + n := by rw [hmod, pow_succ]

lemma parseNat_natStr (n : Nat) : parseNat (natStr n) = n := by
  by_cases h : n = 0
  · subst h; decide
  · simp only [natStr, if_neg h, parseNat]
    simpa using parseNat_aux n n 0 (Nat.le_refl n)

lemma splitChar_ne_nil (c : Char) (s : PyStr) : splitChar c s ≠ [] := by
  induction s with
  | nil => simp [splitChar]
  | cons a rest ih =>
    simp only [splitChar]
    cases h : splitChar c rest with
    | nil => simp
    | cons r rs => by_cases hac : a = c <;> simp [hac]

lemma splitChar_single {c : Char} : ∀ {p : PyStr}, c ∉ p → splitChar c p = [p] := by
  intro p
  induction p with
  | nil => intro _; rfl
  | cons a rest ih =>
    intro h
    have hrest : c ∉ rest := fun hr => h (List.mem_cons_of_mem _ hr)
    have hac : a ≠ c := fun he => h (he ▸ List.mem_cons_self _ _)
    simp only [splitChar, ih hrest]
    rw [if_neg hac]

lemma splitChar_append {c : Char} : ∀ {p : PyStr}, c ∉ p → ∀ (rest : PyStr),
    splitChar c (p ++ c :: rest) = p :: splitChar c rest := by
  intro p
  induction p with
  | nil =>
    intro _ rest
    simp only [List.nil_append, splitChar]
    cases hr : splitChar c rest with
    | nil => exact absurd hr (splitChar_ne_nil c rest)
    | cons r rs =>
      dsimp only
      simp
  | cons a p' ih =>
    intro h rest
    have hp' : c ∉ p' := fun hr => h (List.mem_cons_of_mem _ hr)
    have hac : a ≠ c := fun he => h (he ▸ List.mem_cons_self _ _)
    have hih := ih hp' rest
    show splitChar c (a :: (p' ++ c :: rest)) = (a :: p') :: splitChar c rest
    simp only [splitChar]
    rw [hih]
    dsimp only
    rw [if_neg hac]

lemma splitChar_joinSep {c : Char} :
    ∀ (parts : List PyStr), parts ≠ [] → (∀ p ∈ parts, c ∉ p) →
      splitChar c (joinSep [c] parts) = parts := by
  intro parts
  induction parts with
  | nil => intro h _; exact absurd rfl h
  | cons p ps ih =>
    intro _ hall
    cases ps with
    | nil =>
      simp only [joinSep]
      exact splitChar_single (hall p (List.mem_cons_self _ _))
    | cons q ps' =>
      have hp : c ∉ p := hall p (List.mem_cons_self _ _)
      simp only [joinSep]
      have hassoc : p ++ [c] ++ joinSep [c] (q :: ps') = p ++ c :: joinSep [c] (q :: ps') := by
        simp [List.append_assoc]
      rw [hassoc, splitChar_append hp, ih (by simp) (fun r hr => hall r (List.mem_cons_of_mem _ hr))]

lemma getLastD_mem : ∀ (l : List Int) (d : Int), l ≠ [] → l.getLastD d ∈ l := by
  intro l
  induction l with
  | nil => intro d h; exact absurd rfl h
  | cons a rest ih =>
    intro d _
    cases rest with
    | nil => simp
    | cons b rest' =>
      rw [List.getLastD_cons]
      exact List.mem_cons_of_mem _ (ih a (by simp))

lemma rangeClosed_step {a b : Int} (h : a + 1 ≤ b) :
    rangeClosed a b = a :: rangeClosed (a + 1) b := by
  have hk : (b - a).toNat = (b - (a + 1)).toNat + 1 := by omega
  simp only [rangeClosed, hk]
  rw [List.range_succ_eq_map]
  simp only [List.map_cons, List.map_map]
  refine congrArg₂ List.cons (by norm_num) ?_
  refine List.map_congr_left ?_
  intro i _
  show a + Int.ofNat (i + 1) = (a + 1) + Int.ofNat i
  simp only [Int.ofNat_eq_natCast]
  push_cast
  ring

lemma consec_head_le_last :
    ∀ (r : List Int), r.Chain' (fun a b => b = a + 1) → ∀ d, r.headD d ≤ r.getLastD d := by
  intro r
  induction r with
  | nil => intro _ d; simp
  | cons a rest ih =>
    intro hchain d
    cases rest with
    | nil => simp
    | cons b rest' =>
      obtain ⟨hb, hchain'⟩ := List.chain'_cons.mp hchain
      rw [List.getLastD_cons]
      have h2 := ih hchain' a
      simp only [List.headD_cons] at h2 ⊢
      omega

lemma consec_eq_rangeClosed :
    ∀ (r : List Int), r.Chain' (fun a b => b = a + 1) → r ≠ [] →
      r = rangeClosed (r.headD 0) (r.getLastD 0) := by
  intro r
  induction r with
  | nil => intro _ h; exact absurd rfl h
  | cons a rest ih =>
    intro hchain _
    cases rest with
    | nil =>
      show [a] = rangeClosed a a
      unfold rangeClosed
      rw [sub_self, Int.toNat_zero, List.range_succ, List.range_zero, List.nil_append,
        List.map_cons, List.map_nil]
      norm_num
    | cons b rest' =>
      obtain ⟨hb, hchain'⟩ := List.chain'_cons.mp hchain
      have hrec : b :: rest' = rangeClosed b ((b :: rest').getLastD 0) := by
        simpa using ih hchain' (by simp)
      have hble : b ≤ (b :: rest').getLastD 0 := by
        have := consec_head_le_last (b :: rest') hchain' 0
        simpa using this
      have hlast : (a :: b :: rest').getLastD 0 = (b :: rest').getLastD 0 := by
        simp [List.getLastD_cons]
      show a :: b :: rest' = rangeClosed a ((a :: b :: rest').getLastD 0)
      rw [hlast, rangeClosed_step (by omega)]
      rw [← hb]
      exact congrArg (List.cons a) hrec

lemma foldl_msStep_inv :
    ∀ (l : List Int) (sets : List (List Int)) (s : List Int),
      (∀ r ∈ sets, r ≠ [] ∧ r.Chain' (fun a b => b = a + 1)) →
      s ≠ [] → s.Chain' (fun a b => b = a + 1) →
      ∃ sets' s',
        l.foldl msStep (sets, some s) = (sets', some s')
        ∧ (∀ r ∈ sets', r ≠ [] ∧ r.Chain' (fun a b => b = a + 1))
        ∧ s' ≠ [] ∧ s'.Chain' (fun a b => b = a + 1)
        ∧ sets'.flatten ++ s' = sets.flatten ++ s ++ l := by
  intro l
  induction l with
  | nil =>
    intro sets s hsets hs hchain
    exact ⟨sets, s, rfl, hsets, hs, hchain, by simp⟩
  | cons x l ih =>
    intro sets s hsets hs hchain
    simp only [List.foldl_cons]
    by_cases h : s.getLast? = some (x - 1)
    · have hstep : msStep (sets, some s) x = (sets, some (s ++ [x])) := by
        simp [msStep, h]
      rw [hstep]
      have hchain' : (s ++ [x]).Chain' (fun a b => b = a + 1) := by
        rw [List.chain'_append]
        refine ⟨hchain, List.chain'_singleton _, ?_⟩
        intro y hy z hz
        rw [h] at hy
        simp only [Option.mem_def, Option.some.injEq] at hy
        simp only [List.head?_cons, Option.mem_def, Option.some.injEq] at hz
        omega
      obtain ⟨sets', s', heq, h1, h2, h3, h4⟩ := ih sets (s ++ [x]) hsets (by simp) hchain'
      refine ⟨sets', s', heq, h1, h2, h3, ?_⟩
      rw [h4]
      simp [List.append_assoc]
    · have hstep : msStep (sets, some s) x = (sets ++ [s], some [x]) := by
        simp [msStep, h]
      rw [hstep]
      have hsets' : ∀ r ∈ sets ++ [s], r ≠ [] ∧ r.Chain' (fun a b => b = a + 1) := by
        intro r hr
        rcases List.mem_append.mp hr with h1 | h2
        · exact hsets r h1
        · obtain rfl := List.mem_singleton.mp h2
          exact ⟨hs, hchain⟩
      obtain ⟨sets', s', heq, h1, h2, h3, h4⟩ :=
        ih (sets ++ [s]) [x] hsets' (by simp) (List.chain'_singleton x)
      refine ⟨sets', s', heq, h1, h2, h3, ?_⟩
      rw [h4]
      simp [List.append_assoc]

lemma renderRun_no_comma (r : List Int) : ',' ∉ renderRun r := by
  simp only [renderRun]
  by_cases h : r.length > 1
  · rw [if_pos h]
    intro hc
    rcases List.mem_append.mp hc with h1 | h2
    · exact intStr_no_comma _ h1
    · rcases List.mem_cons.mp h2 with he | h3
      · exact absurd he (by decide)
      · exact intStr_no_comma _ h3
  · rw [if_neg h]
    exact intStr_no_comma _

lemma expandPart_renderRun :
    ∀ (r : List Int), r.Chain' (fun a b => b = a + 1) → (∀ x ∈ r, 0 ≤ x) → r ≠ [] →
      expandPart (renderRun r) = r := by
  intro r hchain hpos hne
  cases r with
  | nil => exact absurd rfl hne
  | cons a rest =>
    cases rest with
    | nil =>
      have h0 : (0 : Int) ≤ a := hpos a (List.mem_cons_self _ _)
      have hr : renderRun [a] = natStr a.toNat := by
        simp only [renderRun]
        rw [if_neg (by simp)]
        simp only [List.headD_cons]
        exact intStr_nonneg h0
      rw [hr]
      simp only [expandPart, splitChar_single (natStr_no_colon a.toNat)]
      rw [parseNat_natStr, Int.toNat_of_nonneg h0]
    | cons b rest' =>
      have h0 : (0 : Int) ≤ a := hpos a (List.mem_cons_self _ _)
      have hl0 : (0 : Int) ≤ (a :: b :: rest').getLastD 0 :=
        hpos _ (getLastD_mem _ 0 (by simp))
      have hr : renderRun (a :: b :: rest') =
          natStr a.toNat ++ ':' :: natStr ((a :: b :: rest').getLastD 0).toNat := by
        simp only [renderRun]
        rw [if_pos (by simp)]
        simp only [List.headD_cons]
        rw [intStr_nonneg h0, intStr_nonneg hl0]
      rw [hr]
      simp only [expandPart]
      rw [splitChar_append (natStr_no_colon a.toNat), splitChar_single (natStr_no_colon _)]
      dsimp only
      rw [parseNat_natStr, parseNat_natStr, Int.toNat_of_nonneg h0, Int.toNat_of_nonneg hl0]
      exact (consec_eq_rangeClosed (a :: b :: rest') hchain (by simp)).symm

lemma decode_encode :
    ∀ (l : List Int), l ≠ [] → (∀ x ∈ l, 0 < x) →
      ∃ s, build_message_set l = some s ∧ decodeSet s = l := by
  intro l hne hpos
  cases l with
  | nil => exact absurd rfl hne
  | cons x l' =>
    obtain ⟨sets', s', heq, hruns, hs'ne, hs'chain, hjoin⟩ :=
      foldl_msStep_inv l' [] [x] (by simp) (by simp) (List.chain'_singleton x)
    refine ⟨joinSep [','] ((sets' ++ [s']).map renderRun), ?_, ?_⟩
    · simp only [build_message_set, List.foldl_cons]
      rw [show msStep ([], none) x = ([], some [x]) from rfl, heq]
    · have hjoin' : (sets' ++ [s']).flatten = x :: l' := by
        rw [List.flatten_append]
        simpa using hjoin
      have hallruns : ∀ r ∈ sets' ++ [s'], r ≠ [] ∧ r.Chain' (fun a b => b = a + 1) := by
        intro r hr
        rcases List.mem_append.mp hr with h1 | h2
        · exact hruns r h1
        · obtain rfl := List.mem_singleton.mp h2
          exact ⟨hs'ne, hs'chain⟩
      have hposruns : ∀ r ∈ sets' ++ [s'], ∀ y ∈ r, 0 ≤ y := by
        intro r hr y hy
        have hmem : y ∈ (sets' ++ [s']).flatten := List.mem_flatten.mpr ⟨r, hr, hy⟩
        rw [hjoin'] at hmem
        exact le_of_lt (hpos y hmem)
      have hnocomma : ∀ p ∈ (sets' ++ [s']).map renderRun, ',' ∉ p := by
        intro p hp
        obtain ⟨r, hr, rfl⟩ := List.mem_map.mp hp
        exact renderRun_no_comma r
      have hfun : ∀ r ∈ sets' ++ [s'], (expandPart ∘ renderRun) r = id r := by
        intro r hr
        simp only [Function.comp_apply, id_eq]
        exact expandPart_renderRun r (hallruns r hr).2 (hposruns r hr) (hallruns r hr).1
      simp only [decodeSet]
      rw [splitChar_joinSep ((sets' ++ [s']).map renderRun) (by simp) hnocomma]
      rw [List.map_map, List.map_congr_left hfun, List.map_id, hjoin']

/-- C1: for every non-empty ascending sequence of unique positive
integers, `build_message_set` produces the comma-separated string whose
items are maximal consecutive runs rendered `first:last` (bare integer
for singletons), and splitting that string back on commas and colons and
expanding the ranges reconstructs exactly the original sequence; in
particular `encode [5] = "5"` and
`encode [1,2,3,5,7,8,9] = "1:3,5,7:9"`. -/
theorem build_message_set_roundtrip :
    (∀ l : List Int, l ≠ [] → l.Chain' (fun a b => a < b) → (∀ x ∈ l, 0 < x) →
       ∃ s, build_message_set l = some s ∧ decodeSet s = l)
    ∧ build_message_set [5] = some "5".data
    ∧ build_message_set [1, 2, 3, 5, 7, 8, 9] = some "1:3,5,7:9".data :=
  ⟨fun l hne _ hpos => decode_encode l hne hpos, by decide, by decide⟩

/-- Witness for C1's theorem at a concrete input. -/
theorem build_message_set_roundtrip_witness :
    (([1, 2, 3, 5, 7, 8, 9] : List Int) ≠ []
      ∧ ([1, 2, 3, 5, 7, 8, 9] : List Int).Chain' (fun a b => a < b)
      ∧ (∀ x ∈ ([1, 2, 3, 5, 7, 8, 9] : List Int), 0 < x))
    ∧ (∃ s, build_message_set [1, 2, 3, 5, 7, 8, 9] = some s
        ∧ decodeSet s = [1, 2, 3, 5, 7, 8, 9]) :=
  ⟨⟨by decide, by norm_num [List.chain'_cons], by decide⟩,
   build_message_set_roundtrip.1 [1, 2, 3, 5, 7, 8, 9] (by decide)
     (by norm_num [List.chain'_cons]) (by decide)⟩
